import Mathlib

/-!
Verification development for the SamplableSet repository.

The repository consists of a thin Python façade, `src/SamplableSet/_wrapper.py`
(class `SamplableSet`), over a C++ composition-rejection sampling engine
(`_SamplableSetCR`, exposing `IntSamplableSet` / `EdgeSamplableSet`).  The C++
engine itself is not part of the visible sources, so its operations are
modelled from the specification (each such definition carries a doc comment
starting with `Modelled from the spec:`).  The façade's methods are translated
directly from `_wrapper.py`.

Weights are modelled as rationals; the possibly-infinite `max_weight`
constructor argument is modelled by `PyFloat`.  Keys are modelled by `PyKey`,
which includes the Python type object `int` itself as a value because line 60
of the wrapper compares the first element against it with the identity test
`first_element is int`.
-/

/-- A Python value usable as an element key: a scalar integer, a triple of
integers (an "edge"), a string, or the Python type object `int` itself (the
object that `first_element is int` compares against). -/
inductive PyKey where
  | intKey (n : ℤ)
  | edgeKey (a b c : ℤ)
  | strKey (s : String)
  | typeObjInt
deriving DecidableEq, Repr

/-- Errors surfaced by the façade or the engine.  `rangeError` stands for the
Python `ValueError` raised for out-of-range weights or invalid construction
bounds; `attributeError` for Python's `AttributeError` on a missing
attribute. -/
inductive PyErr where
  | rangeError
  | keyNotFoundError
  | duplicateKeyError
  | attributeError
deriving DecidableEq, Repr

/-- A possibly-infinite floating point bound, as passed for `max_weight`
(e.g. `np.inf` in the repository's tests). -/
inductive PyFloat where
  | fin (q : ℚ)
  | inf
deriving DecidableEq, Repr

/-- Modelled from the spec: the state of the C++ engine `_SamplableSetCR`
(not present in the visible sources).  It owns the configured weight bounds,
the stored (key, weight) entries — exactly one entry per live key — and the
state of its exclusively owned random source (a seed). -/
structure SamplableSetCR where
  minW : ℚ
  maxW : ℚ
  entries : List (PyKey × ℚ)
  seed : ℕ
deriving DecidableEq, Repr, Inhabited

/-- First-match lookup of a key's weight in the entry list (the engine's
KeyIndex gives O(1) lookup; observably, the weight of the unique entry for
the key, or `none`). -/
def lookupWeight : List (PyKey × ℚ) → PyKey → Option ℚ
  | [], _ => none
  | e :: rest, k => if e.1 = k then some e.2 else lookupWeight rest k

/-- Update the first entry carrying the key to the new weight. -/
def setWeightList : List (PyKey × ℚ) → PyKey → ℚ → List (PyKey × ℚ)
  | [], _, _ => []
  | e :: rest, k, w => if e.1 = k then (e.1, w) :: rest else e :: setWeightList rest k w

/-- Remove the first entry carrying the key. -/
def eraseList : List (PyKey × ℚ) → PyKey → List (PyKey × ℚ)
  | [], _ => []
  | e :: rest, k => if e.1 = k then rest else e :: eraseList rest k

/-- Modelled from the spec: `count(key)` returns the current weight if the key
is present, else an absent sentinel (Python `None`); it never raises. -/
def SamplableSetCR.count (s : SamplableSetCR) (k : PyKey) : Option ℚ :=
  lookupWeight s.entries k

/-- Modelled from the spec: `size()` is the number of stored elements. -/
def SamplableSetCR.size (s : SamplableSetCR) : ℕ :=
  s.entries.length

/-- Modelled from the spec: `total_weight()` is the sum of all stored
weights. -/
def SamplableSetCR.total_weight (s : SamplableSetCR) : ℚ :=
  (s.entries.map Prod.snd).sum

/-- Modelled from the spec: `insert(key, weight)` fails with RangeError if the
weight is outside `[min_weight, max_weight]`, fails with DuplicateKeyError if
the key is already present (strict variant), and otherwise stores the new
entry.  A failed call leaves the state untouched (strong exception safety). -/
def SamplableSetCR.insert (s : SamplableSetCR) (k : PyKey) (w : ℚ) : Except PyErr SamplableSetCR :=
  if s.minW ≤ w ∧ w ≤ s.maxW then
    if (s.count k).isSome then
      .error .duplicateKeyError
    else
      .ok { s with entries := s.entries ++ [(k, w)] }
  else
    .error .rangeError

/-- Modelled from the spec: `set_weight(key, weight)` fails with RangeError if
the weight is out of bounds, fails with KeyNotFoundError if the key is absent,
and otherwise updates the key's weight in place. -/
def SamplableSetCR.set_weight (s : SamplableSetCR) (k : PyKey) (w : ℚ) : Except PyErr SamplableSetCR :=
  if s.minW ≤ w ∧ w ≤ s.maxW then
    if (s.count k).isSome then
      .ok { s with entries := setWeightList s.entries k w }
    else
      .error .keyNotFoundError
  else
    .error .rangeError

/-- Modelled from the spec: `erase(key)` fails with KeyNotFoundError if the key
is absent, and otherwise removes its entry. -/
def SamplableSetCR.erase (s : SamplableSetCR) (k : PyKey) : Except PyErr SamplableSetCR :=
  if (s.count k).isSome then
    .ok { s with entries := eraseList s.entries k }
  else
    .error .keyNotFoundError

/-- A step of the engine's seedable uniform random source (a linear
congruential generator). -/
def lcgStep (n : ℕ) : ℕ :=
  (75 * n + 74) % (2 ^ 16)

/-- A uniform draw in `[0, 1)` derived from the random source state. -/
def uniform01 (n : ℕ) : ℚ :=
  ((lcgStep n % 2 ^ 16 : ℕ) : ℚ) / (2 ^ 16 : ℚ)

/-- Walk the entries accumulating weights and return the entry containing the
target point; the last candidate is accepted unconditionally (the spec's
defensive cap guaranteeing termination). -/
def pickEntry : List (PyKey × ℚ) → ℚ → Option (PyKey × ℚ)
  | [], _ => none
  | [e], _ => some e
  | e :: rest, t => if t < e.2 then some e else pickEntry rest (t - e.2)

/-- Modelled from the spec: `sample()` draws a (key, weight) pair with
probability proportional to its weight — the draw consumes one uniform variate
from the owned random source — and returns an empty sentinel if the container
is empty.  It never mutates size, total weight, or any stored entry; only the
random source advances. -/
def SamplableSetCR.sample (s : SamplableSetCR) : Option (PyKey × ℚ) × SamplableSetCR :=
  if s.entries.isEmpty then
    (none, s)
  else
    (pickEntry s.entries (uniform01 s.seed * s.total_weight), { s with seed := lcgStep s.seed })

/-- Modelled from the spec: the C++ constructor fails with RangeError (a Python
`ValueError`) unless `0 < min_weight < max_weight < ∞`; on failure no state is
allocated. -/
def SamplableSetCR.new (minW : ℚ) (maxW : PyFloat) (seed : ℕ) : Except PyErr SamplableSetCR :=
  match maxW with
  | .inf => .error .rangeError
  | .fin m =>
    if 0 < minW ∧ minW < m then
      .ok { minW := minW, maxW := m, entries := [], seed := seed }
    else
      .error .rangeError

/-- Well-formedness invariant of an engine state: positive bounds in order and
every stored weight within `[min_weight, max_weight]` (spec §3, maintained by
every mutation). -/
def SamplableSetCR.WF (s : SamplableSetCR) : Prop :=
  0 < s.minW ∧ s.minW ≤ s.maxW ∧ ∀ e ∈ s.entries, s.minW ≤ e.2 ∧ e.2 ≤ s.maxW

instance (s : SamplableSetCR) : Decidable s.WF := by
  unfold SamplableSetCR.WF; infer_instance

/-- The Python façade object of class `SamplableSet` (`_wrapper.py`): it holds
the C++ engine object in `_samplable_set` and records the weight bounds as the
attributes set on lines 75–76. -/
structure SamplableSet where
  _samplable_set : SamplableSetCR
  min_weight : ℚ
  max_weight : ℚ
deriving DecidableEq, Repr

/-- Façade well-formedness: the engine state is well-formed and the façade's
bound attributes agree with the engine's configured bounds (both are set from
the same constructor arguments in `__init__`). -/
def SamplableSet.WF (s : SamplableSet) : Prop :=
  s._samplable_set.WF ∧ s.min_weight = s._samplable_set.minW ∧ s.max_weight = s._samplable_set.maxW

instance (s : SamplableSet) : Decidable s.WF := by
  unfold SamplableSet.WF; infer_instance

/-- `count` as forwarded onto the façade by line 72 of `_wrapper.py`. -/
def SamplableSet.count (s : SamplableSet) (k : PyKey) : Option ℚ :=
  s._samplable_set.count k

/-- Python truthiness of a `count` result: `None` is falsy and a zero weight is
falsy, anything else truthy. -/
def pyTruthyOpt : Option ℚ → Bool
  | none => false
  | some w => decide (w ≠ 0)

/-- `__contains__` (line 84): `True if self.count(element) else False`. -/
def SamplableSet.contains (s : SamplableSet) (k : PyKey) : Bool :=
  pyTruthyOpt (s.count k)

/-- `__len__` (line 108): returns `self.size()`. -/
def SamplableSet.len (s : SamplableSet) : ℕ :=
  s._samplable_set.size

/-- `__setitem__` (lines 90–97): if the weight is within
`[self.min_weight, self.max_weight]`, route to `set_weight` when the element
is present and to `insert` otherwise; else raise `ValueError` before touching
any state.  The first component is the raised error, if any; the second is the
façade afterwards (unchanged when an error is raised, since the engine's
failing calls mutate nothing). -/
def SamplableSet.setitem (s : SamplableSet) (k : PyKey) (w : ℚ) : Option PyErr × SamplableSet :=
  if s.min_weight ≤ w ∧ w ≤ s.max_weight then
    if s.contains k then
      match s._samplable_set.set_weight k w with
      | .ok c => (none, { s with _samplable_set := c })
      | .error e => (some e, s)
    else
      match s._samplable_set.insert k w with
      | .ok c => (none, { s with _samplable_set := c })
      | .error e => (some e, s)
  else
    (some .rangeError, s)

/-- `__delitem__` (lines 99–100): forwards to `erase`. -/
def SamplableSet.delitem (s : SamplableSet) (k : PyKey) : Option PyErr × SamplableSet :=
  match s._samplable_set.erase k with
  | .ok c => (none, { s with _samplable_set := c })
  | .error e => (some e, s)

/-- The attribute names resolvable on a façade instance: the six engine
methods copied onto the instance by the loop on lines 72–73, the attributes
assigned on lines 75–76 and 68–70, and the methods defined by the class
body itself. -/
def facadeAttrNames : List String :=
  ["size", "total_weight", "count", "insert", "set_weight", "erase",
   "max_weight", "min_weight", "_samplable_set",
   "__contains__", "__getitem__", "__setitem__", "__delitem__",
   "__str__", "__repr__", "__len__",
   "copy", "__deepcopy__", "__copy__", "sample", "sample_generator"]

/-- `__getitem__` (lines 87–88): returns `self.get_weight(element)`.  The name
`get_weight` is not among the attributes resolvable on the instance (it is not
in the forwarding loop on line 72 and the class defines no such method), so
attribute lookup raises `AttributeError`; were the name resolvable to the
engine's weight lookup, the call would return `count`'s result. -/
def SamplableSet.getitem (s : SamplableSet) (k : PyKey) : Except PyErr (Option ℚ) :=
  if facadeAttrNames.contains "get_weight" then
    .ok (s.count k)
  else
    .error .attributeError

/-- The attribute names resolvable on an instance of a C++ template class
(`IntSamplableSet` / `EdgeSamplableSet`).  Modelled from the spec: the engine
exposes the core operations `insert/erase/set_weight/sample/count/size/
total_weight/copy` and none of the façade's dict-style methods or bound
attributes, which §1 and §6 place in the thin binding layer. -/
def cppAttrNames : List String :=
  ["size", "total_weight", "count", "insert", "set_weight", "erase", "sample"]

/-- A Python object reachable through the façade's API: either a façade
instance of class `SamplableSet` or a raw C++ engine object. -/
inductive PyObj where
  | facadeObj (s : SamplableSet)
  | cppObj (c : SamplableSetCR)
deriving DecidableEq, Repr

/-- Python `hasattr` over the two classes of objects in play. -/
def PyObj.hasAttrNamed : PyObj → String → Bool
  | .facadeObj _, a => facadeAttrNames.contains a
  | .cppObj _, a => cppAttrNames.contains a

/-- `copy` (lines 111–112): returns
`type(self._samplable_set)(self._samplable_set)` — a fresh object of the C++
template class built by its copy constructor (modelled from the spec as a
deep, independent clone of the whole engine state), not a façade instance. -/
def SamplableSet.copy (s : SamplableSet) : PyObj :=
  .cppObj s._samplable_set

/-- `__deepcopy__` (lines 114–115): returns `self.copy()`. -/
def SamplableSet.deepcopyMethod (s : SamplableSet) : PyObj :=
  s.copy

/-- `__copy__` (lines 117–118): returns `self.copy()`. -/
def SamplableSet.copyMethod (s : SamplableSet) : PyObj :=
  s.copy

/-!
Object-identity model for the independence of `copy`: Python objects live in a
heap of engine states addressed by index, mutation acts on one address, and
`copy` allocates the clone at a fresh address.
-/

/-- A heap of engine objects; an object reference is an index. -/
abbrev CRHeap := List SamplableSetCR

/-- Dereference an object. -/
def readHeap (h : CRHeap) (i : ℕ) : SamplableSetCR :=
  h.getD i default

/-- `copy` on the heap: allocate a fresh object holding a clone of the engine
state at `i` (the C++ copy constructor's deep copy) and return its address. -/
def copyHeap (h : CRHeap) (i : ℕ) : CRHeap × ℕ :=
  (h ++ [readHeap h i], h.length)

/-- In-place mutation of the object at address `i` (any of the engine's
mutating operations). -/
def mutateHeap (h : CRHeap) (i : ℕ) (g : SamplableSetCR → SamplableSetCR) : CRHeap :=
  h.set i (g (readHeap h i))

/-- The value returned by the façade's `sample` (lines 120–132): a single
draw when `n_samples == 1`, otherwise a generator of `n_samples` draws. -/
inductive SampleResult where
  | single (r : Option (PyKey × ℚ))
  | generator (rs : List (Option (PyKey × ℚ)))
deriving DecidableEq, Repr

/-- `sample_generator` (lines 134–136) run to exhaustion: `n` successive
engine draws, threading the engine state. -/
def sampleTimes : SamplableSetCR → ℕ → List (Option (PyKey × ℚ)) × SamplableSetCR
  | s, 0 => ([], s)
  | s, n + 1 =>
    let p := s.sample
    let q := sampleTimes p.2 n
    (p.1 :: q.1, q.2)

/-- `sample` (lines 120–132): with `n_samples == 1` return one engine draw,
otherwise return `self.sample_generator(n_samples)`.  The method takes no
other parameter. -/
def SamplableSet.sample (s : SamplableSet) (n_samples : ℕ) : SampleResult × SamplableSet :=
  if n_samples = 1 then
    let p := s._samplable_set.sample
    (.single p.1, { s with _samplable_set := p.2 })
  else
    let q := sampleTimes s._samplable_set n_samples
    (.generator q.1, { s with _samplable_set := q.2 })

/-- Whether a Python value is the type object `int` — the test
`first_element is int` on line 60 is an identity comparison with that object,
true only for the type object itself and false for every scalar integer. -/
def pyIsTypeInt : PyKey → Bool
  | .typeObjInt => true
  | _ => false

/-- Type inference on line 60 of `__init__`:
`cpp_type = 'int' if first_element is int else 'edge'`. -/
def inferCppType (first_element : PyKey) : String :=
  if pyIsTypeInt first_element then "int" else "edge"

/-- The loop on lines 81–82 of `__init__`: assign each (element, weight) pair
through `__setitem__`; a raised error propagates out of the constructor. -/
def initLoop : SamplableSet → List (PyKey × ℚ) → Except PyErr SamplableSet
  | s, [] => .ok s
  | s, (k, w) :: rest =>
    match s.setitem k w with
    | (none, s') => initLoop s' rest
    | (some e, _) => .error e

/-- `__init__` (lines 38–82) with `elements_weights` given as the (key, weight)
pairs of a dict (or `none` when omitted; an empty dict is falsy in Python and
behaves like `none`): construct the engine — its constructor validates the
bounds — set the `min_weight`/`max_weight` attributes, then, when pairs were
supplied, assign the first pair once on line 80 and every pair (the first one
again) in the loop on lines 81–82.  The chosen template class is
`template_classes[inferCppType first_element]`; the engine model is
key-generic, so only the bound validation and the assignments affect the
state. -/
def SamplableSet.init (minW : ℚ) (maxW : PyFloat) (ew : Option (List (PyKey × ℚ)))
    (seed : ℕ) : Except PyErr SamplableSet :=
  match SamplableSetCR.new minW maxW seed with
  | .error e => .error e
  | .ok c =>
    let base : SamplableSet :=
      { _samplable_set := c, min_weight := minW, max_weight := c.maxW }
    match ew with
    | none => .ok base
    | some [] => .ok base
    | some ((k₀, w₀) :: rest) =>
      match base.setitem k₀ w₀ with
      | (some e, _) => .error e
      | (none, s₁) => initLoop s₁ ((k₀, w₀) :: rest)

/-- The construction bounds accepted by the engine constructor:
`0 < min_weight < max_weight < ∞`. -/
def validBounds (minW : ℚ) : PyFloat → Prop
  | .inf => False
  | .fin m => 0 < minW ∧ minW < m

instance (minW : ℚ) (maxW : PyFloat) : Decidable (validBounds minW maxW) := by
  cases maxW <;> (unfold validBounds; infer_instance)

/-! ### Lemmas about the entry-list primitives -/

theorem mem_of_lookupWeight {l : List (PyKey × ℚ)} {k : PyKey} {w : ℚ}
    (h : lookupWeight l k = some w) : (k, w) ∈ l := by
  induction l with
  | nil => exact absurd h (by simp [lookupWeight])
  | cons e rest ih =>
    rw [lookupWeight] at h
    by_cases hek : e.1 = k
    · rw [if_pos hek] at h
      have hw : e.2 = w := Option.some.inj h
      have he : e = (k, w) := by rw [← hek, ← hw]
      rw [← he]
      exact List.mem_cons_self _ _
    · rw [if_neg hek] at h
      exact List.mem_cons_of_mem _ (ih h)

theorem lookupWeight_append_of_none {l : List (PyKey × ℚ)} {k : PyKey}
    (h : lookupWeight l k = none) (k' : PyKey) (w : ℚ) :
    lookupWeight (l ++ [(k', w)]) k = if k' = k then some w else none := by
  induction l with
  | nil => simp [lookupWeight]
  | cons e rest ih =>
    rw [lookupWeight] at h
    by_cases hek : e.1 = k
    · rw [if_pos hek] at h
      exact absurd h (by simp)
    · rw [if_neg hek] at h
      rw [List.cons_append, lookupWeight, if_neg hek]
      exact ih h

theorem lookupWeight_setWeightList {l : List (PyKey × ℚ)} {k : PyKey} {w' : ℚ}
    (h : lookupWeight l k = some w') (w : ℚ) :
    lookupWeight (setWeightList l k w) k = some w := by
  induction l with
  | nil => exact absurd h (by simp [lookupWeight])
  | cons e rest ih =>
    rw [lookupWeight] at h
    by_cases hek : e.1 = k
    · rw [setWeightList, if_pos hek, lookupWeight, if_pos hek]
    · rw [if_neg hek] at h
      rw [setWeightList, if_neg hek, lookupWeight, if_neg hek]
      exact ih h

theorem setWeightList_self {l : List (PyKey × ℚ)} {k : PyKey} {w : ℚ}
    (h : lookupWeight l k = some w) : setWeightList l k w = l := by
  induction l with
  | nil => rfl
  | cons e rest ih =>
    rw [lookupWeight] at h
    by_cases hek : e.1 = k
    · rw [if_pos hek] at h
      rw [setWeightList, if_pos hek, ← Option.some.inj h, Prod.mk.eta]
    · rw [if_neg hek] at h
      rw [setWeightList, if_neg hek, ih h]

theorem lookupWeight_nodup_mem {l : List (PyKey × ℚ)} (hnd : (l.map Prod.fst).Nodup)
    {p : PyKey × ℚ} (hp : p ∈ l) : lookupWeight l p.1 = some p.2 := by
  induction l with
  | nil => exact absurd hp (List.not_mem_nil p)
  | cons e rest ih =>
    rw [List.map_cons, List.nodup_cons] at hnd
    rcases List.mem_cons.mp hp with rfl | hp'
    · rw [lookupWeight, if_pos rfl]
    · have hne : ¬ e.1 = p.1 :=
        fun hh => hnd.1 (hh ▸ List.mem_map_of_mem Prod.fst hp')
      rw [lookupWeight, if_neg hne]
      exact ih hnd.2 hp'

/-! ### Characterizations of `__setitem__` on the two routes -/

theorem setitem_of_absent {s : SamplableSet} {k : PyKey} (w : ℚ)
    (hmin : s.min_weight = s._samplable_set.minW)
    (hmax : s.max_weight = s._samplable_set.maxW)
    (h₁ : s.min_weight ≤ w) (h₂ : w ≤ s.max_weight)
    (habs : s._samplable_set.count k = none) :
    s._samplable_set.insert k w =
      .ok { s._samplable_set with entries := s._samplable_set.entries ++ [(k, w)] } ∧
    s.setitem k w = (none,
      { s with _samplable_set :=
          { s._samplable_set with entries := s._samplable_set.entries ++ [(k, w)] } }) := by
  have hcont : s.contains k = false := by
    simp [SamplableSet.contains, SamplableSet.count, habs, pyTruthyOpt]
  have hins : s._samplable_set.insert k w =
      .ok { s._samplable_set with entries := s._samplable_set.entries ++ [(k, w)] } := by
    rw [SamplableSetCR.insert, if_pos ⟨hmin ▸ h₁, hmax ▸ h₂⟩, habs]
    rfl
  refine ⟨hins, ?_⟩
  rw [SamplableSet.setitem, if_pos ⟨h₁, h₂⟩, hcont]
  simp only [Bool.false_eq_true, if_false, hins]

theorem setitem_of_present {s : SamplableSet} {k : PyKey} {w' : ℚ} (w : ℚ)
    (hmin : s.min_weight = s._samplable_set.minW)
    (hmax : s.max_weight = s._samplable_set.maxW)
    (h₁ : s.min_weight ≤ w) (h₂ : w ≤ s.max_weight)
    (hw' : w' ≠ 0)
    (hp : s._samplable_set.count k = some w') :
    s._samplable_set.set_weight k w =
      .ok { s._samplable_set with entries := setWeightList s._samplable_set.entries k w } ∧
    s.setitem k w = (none,
      { s with _samplable_set :=
          { s._samplable_set with entries := setWeightList s._samplable_set.entries k w } }) := by
  have hcont : s.contains k = true := by
    simp [SamplableSet.contains, SamplableSet.count, hp, pyTruthyOpt, hw']
  have hsw : s._samplable_set.set_weight k w =
      .ok { s._samplable_set with entries := setWeightList s._samplable_set.entries k w } := by
    rw [SamplableSetCR.set_weight, if_pos ⟨hmin ▸ h₁, hmax ▸ h₂⟩, hp]
    rfl
  refine ⟨hsw, ?_⟩
  rw [SamplableSet.setitem, if_pos ⟨h₁, h₂⟩, hcont]
  simp only [if_true, hsw]

theorem WF_entries_append {s : SamplableSet} (hwf : s.WF) {k : PyKey} {w : ℚ}
    (h₁ : s.min_weight ≤ w) (h₂ : w ≤ s.max_weight) :
    SamplableSet.WF { s with _samplable_set :=
      { s._samplable_set with entries := s._samplable_set.entries ++ [(k, w)] } } := by
  obtain ⟨⟨hpos, hord, hall⟩, hmin, hmax⟩ := hwf
  refine ⟨⟨hpos, hord, ?_⟩, hmin, hmax⟩
  intro e he
  rcases List.mem_append.mp he with he | he
  · exact hall e he
  · rw [List.mem_singleton.mp he]
    exact ⟨hmin ▸ h₁, hmax ▸ h₂⟩

theorem initLoop_of_fresh : ∀ (rest : List (PyKey × ℚ)) (s : SamplableSet), s.WF →
    (∀ p ∈ rest, s.min_weight ≤ p.2 ∧ p.2 ≤ s.max_weight) →
    (∀ p ∈ rest, s._samplable_set.count p.1 = none) →
    ((rest.map Prod.fst).Nodup) →
    initLoop s rest = .ok { s with _samplable_set :=
      { s._samplable_set with entries := s._samplable_set.entries ++ rest } }
  | [], s, _, _, _, _ => by
    rw [initLoop]
    cases s with
    | mk c mn mx => cases c; simp
  | (k, w) :: rest, s, hwf, hbnd, hfresh, hnd => by
    have hmem := List.mem_cons_self (k, w) rest
    have hset := (setitem_of_absent w hwf.2.1 hwf.2.2
      (hbnd _ hmem).1 (hbnd _ hmem).2 (hfresh _ hmem)).2
    rw [List.map_cons, List.nodup_cons] at hnd
    have hrec := initLoop_of_fresh rest
      { s with _samplable_set :=
        { s._samplable_set with entries := s._samplable_set.entries ++ [(k, w)] } }
      (WF_entries_append hwf (hbnd _ hmem).1 (hbnd _ hmem).2)
      (fun p hp => hbnd p (List.mem_cons_of_mem _ hp))
      (fun p hp => by
        have hne : ¬ k = p.1 := by
          intro hh
          apply hnd.1
          show k ∈ List.map Prod.fst rest
          rw [hh]
          exact List.mem_map.mpr ⟨p, hp, rfl⟩
        have halw := lookupWeight_append_of_none (l := s._samplable_set.entries)
          (hfresh p (List.mem_cons_of_mem _ hp)) k w
        simpa [SamplableSetCR.count, hne] using halw)
      hnd.2
    rw [initLoop, hset]
    show initLoop { s with _samplable_set :=
        { s._samplable_set with entries := s._samplable_set.entries ++ [(k, w)] } } rest = _
    rw [hrec]
    simp

theorem sample_preserves_entries (s : SamplableSetCR) : s.sample.2.entries = s.entries := by
  unfold SamplableSetCR.sample
  by_cases h : s.entries.isEmpty
  · rw [if_pos h]
  · rw [if_neg h]

theorem sampleTimes_spec : ∀ (n : ℕ) (s : SamplableSetCR),
    (sampleTimes s n).1.length = n ∧ (sampleTimes s n).2.entries = s.entries
  | 0, _ => by simp [sampleTimes]
  | n + 1, s => by
    rw [sampleTimes]
    have ih := sampleTimes_spec n s.sample.2
    refine ⟨by simpa using ih.1, ?_⟩
    rw [ih.2, sample_preserves_entries]

/-! ### Claim theorems -/

/-- C3: dict-style assignment with a weight outside
`[min_weight, max_weight]` raises the range error (Python `ValueError`) and
returns with the façade exactly as it was — same size, same total weight, and
every key mapped to the same weight — whether or not the key was present. -/
theorem setitem_out_of_range (s : SamplableSet) (k : PyKey) (w : ℚ)
    (h : ¬ (s.min_weight ≤ w ∧ w ≤ s.max_weight)) :
    s.setitem k w = (some .rangeError, s) ∧
    (s.setitem k w).2.len = s.len ∧
    (s.setitem k w).2._samplable_set.total_weight = s._samplable_set.total_weight ∧
    ∀ k' : PyKey, (s.setitem k w).2.count k' = s.count k' := by
  have heq : s.setitem k w = (some .rangeError, s) := by
    rw [SamplableSet.setitem, if_neg h]
  exact ⟨heq, by rw [heq], by rw [heq], fun k' => by rw [heq]⟩

theorem setitem_out_of_range_witness :
    ¬ ((1 : ℚ) ≤ 20 ∧ (20 : ℚ) ≤ 10) ∧
    SamplableSet.setitem ⟨⟨1, 10, [(.strKey "a", 2)], 0⟩, 1, 10⟩ (.strKey "a") 20
      = (some .rangeError, ⟨⟨1, 10, [(.strKey "a", 2)], 0⟩, 1, 10⟩) :=
  ⟨by decide,
    (setitem_out_of_range ⟨⟨1, 10, [(.strKey "a", 2)], 0⟩, 1, 10⟩ (.strKey "a") 20
      (by decide)).1⟩

/-- C4 (code evaluation): dict-style indexed get always raises
`AttributeError`: `__getitem__` calls `self.get_weight(element)`, but no
`get_weight` attribute exists on the façade — the forwarding loop of line 72
does not include it and the class defines no method of that name — so the
call never returns a weight or the absent sentinel.  The repository's own
tests `test_get_weight` / `test_get_weight_no_item` expect `2.0` and `None`
instead. -/
theorem getitem_always_attribute_error (s : SamplableSet) (k : PyKey) :
    s.getitem k = .error .attributeError := by
  have hattr : facadeAttrNames.contains "get_weight" = false := by decide
  rw [SamplableSet.getitem, hattr]
  simp

/-- C5 (code evaluation): the inference
`cpp_type = 'int' if first_element is int else 'edge'` on line 60 selects the
'edge' template class for the scalar integer key `3` (and for a string key),
because `x is int` is an identity comparison with the type object `int`; only
the type object itself selects 'int'.  The repository's own
`test_dict_init` builds from `{3: 33.3, 6: 66.6}` expecting the integer
variant to work. -/
theorem inferCppType_misclassifies_scalar_int :
    inferCppType (.intKey 3) = "edge" ∧
    inferCppType (.strKey "a") = "edge" ∧
    inferCppType .typeObjInt = "int" :=
  ⟨rfl, rfl, rfl⟩

/-- C2 (code evaluation): the façade's batch sampling call takes only
`n_samples` — there is no with/without-replacement flag anywhere in its
signature — and its generator path repeats the non-destructive engine draw.
On the container holding 'a' with weight 33.3 (the repository's own scenario
in `test_sampling_no_replacement_generator`), `sample(n_samples=5)` yields
five identical non-empty draws and leaves the element stored (length still
1); the test instead calls `sample(n_samples=5, replace=False)` — an argument
the method cannot accept — and expects one real draw, four `None` sentinels,
and length 0. -/
theorem sample_five_always_with_replacement :
    (SamplableSet.sample ⟨⟨1, 100, [(.strKey "a", mkRat 333 10)], 0⟩, 1, 100⟩ 5).1
      = .generator (List.replicate 5 (some (.strKey "a", mkRat 333 10))) ∧
    (SamplableSet.sample ⟨⟨1, 100, [(.strKey "a", mkRat 333 10)], 0⟩, 1, 100⟩ 5).2.len = 1 := by
  constructor
  · rfl
  · rfl

/-- C7: single sampling (`n_samples = 1`) never mutates the container — the
stored entries (hence the size, the total weight, and every stored element's
weight) and the configured bounds are unchanged — and on an empty container
it returns the empty sentinel rather than raising. -/
theorem sample_single_never_mutates (s : SamplableSet) :
    (s.sample 1).2._samplable_set.entries = s._samplable_set.entries ∧
    (s.sample 1).2.len = s.len ∧
    (s.sample 1).2._samplable_set.total_weight = s._samplable_set.total_weight ∧
    (s.sample 1).2.min_weight = s.min_weight ∧
    (s.sample 1).2.max_weight = s.max_weight ∧
    (s.len = 0 → (s.sample 1).1 = .single none) := by
  have hs : s.sample 1 = (.single s._samplable_set.sample.1,
      { s with _samplable_set := s._samplable_set.sample.2 }) := rfl
  have hent := sample_preserves_entries s._samplable_set
  refine ⟨by rw [hs]; exact hent, ?_, ?_, by rw [hs], by rw [hs], ?_⟩
  · rw [hs]
    show s._samplable_set.sample.2.entries.length = s._samplable_set.entries.length
    rw [hent]
  · rw [hs]
    show (s._samplable_set.sample.2.entries.map Prod.snd).sum
      = (s._samplable_set.entries.map Prod.snd).sum
    rw [hent]
  · intro h0
    have hnil : s._samplable_set.entries = [] := List.length_eq_zero.mp h0
    have hnone : s._samplable_set.sample = (none, s._samplable_set) := by
      unfold SamplableSetCR.sample
      rw [hnil]
      rfl
    rw [hs]
    show SampleResult.single s._samplable_set.sample.1 = .single none
    rw [hnone]

theorem sample_single_never_mutates_witness :
    ((SamplableSet.sample ⟨⟨1, 10, [], 0⟩, 1, 10⟩ 1).2._samplable_set.entries
      = ([] : List (PyKey × ℚ))) ∧
    (SamplableSet.sample ⟨⟨1, 10, [], 0⟩, 1, 10⟩ 1).1 = .single none :=
  ⟨(sample_single_never_mutates ⟨⟨1, 10, [], 0⟩, 1, 10⟩).1,
    (sample_single_never_mutates ⟨⟨1, 10, [], 0⟩, 1, 10⟩).2.2.2.2.2 rfl⟩

/-- C10: `copy()` — and `__copy__`/`__deepcopy__`, which delegate to it —
returns the raw C++ template-class object, not a façade instance: the clone
lacks every dict-style method (`__getitem__`, `__setitem__`, `__delitem__`,
`__contains__`, `__len__`) and the `min_weight`/`max_weight` attributes, all
of which the façade instance has. -/
theorem copy_returns_raw_cpp_object (s : SamplableSet) :
    s.copy = .cppObj s._samplable_set ∧
    s.copyMethod = s.copy ∧
    s.deepcopyMethod = s.copy ∧
    ∀ a ∈ (["__getitem__", "__setitem__", "__delitem__", "__contains__", "__len__",
        "min_weight", "max_weight"] : List String),
      PyObj.hasAttrNamed s.copy a = false ∧ PyObj.hasAttrNamed (.facadeObj s) a = true := by
  refine ⟨rfl, rfl, rfl, ?_⟩
  intro a ha
  fin_cases ha <;> exact ⟨rfl, rfl⟩

theorem copy_returns_raw_cpp_object_witness :
    PyObj.hasAttrNamed (SamplableSet.copy ⟨⟨1, 10, [], 0⟩, 1, 10⟩) "__getitem__" = false ∧
    PyObj.hasAttrNamed (.facadeObj ⟨⟨1, 10, [], 0⟩, 1, 10⟩) "__getitem__" = true :=
  (copy_returns_raw_cpp_object ⟨⟨1, 10, [], 0⟩, 1, 10⟩).2.2.2 "__getitem__" (by decide)

/-- C6: construction fails with the range error unless
`0 < min_weight < max_weight < ∞` — so non-positive `min_weight`, infinite
`max_weight`, and `min_weight ≥ max_weight` each fail — and on failure no
façade state comes into existence; with valid bounds construction succeeds
with an empty container carrying exactly the given bounds and seed. -/
theorem init_bounds_validation (minW : ℚ) (maxW : PyFloat) (seed : ℕ) :
    (¬ validBounds minW maxW → SamplableSet.init minW maxW none seed = .error .rangeError) ∧
    (validBounds minW maxW →
      ∃ m : ℚ, maxW = .fin m ∧
        SamplableSet.init minW maxW none seed = .ok ⟨⟨minW, m, [], seed⟩, minW, m⟩) := by
  cases maxW with
  | inf =>
    refine ⟨fun _ => rfl, fun hv => absurd hv ?_⟩
    show ¬ False
    exact not_false
  | fin m =>
    by_cases hv : 0 < minW ∧ minW < m
    · have hnew : SamplableSetCR.new minW (.fin m) seed =
          .ok ⟨minW, m, [], seed⟩ := by
        show (if 0 < minW ∧ minW < m then
            (Except.ok ⟨minW, m, [], seed⟩ : Except PyErr SamplableSetCR)
          else .error .rangeError) = .ok ⟨minW, m, [], seed⟩
        rw [if_pos hv]
      refine ⟨fun hnv => absurd hv hnv, fun _ => ⟨m, rfl, ?_⟩⟩
      unfold SamplableSet.init
      rw [hnew]
    · have hnew : SamplableSetCR.new minW (.fin m) seed = .error .rangeError := by
        show (if 0 < minW ∧ minW < m then
            (Except.ok ⟨minW, m, [], seed⟩ : Except PyErr SamplableSetCR)
          else .error .rangeError) = .error .rangeError
        rw [if_neg hv]
      refine ⟨fun _ => ?_, fun hvv => absurd hvv hv⟩
      unfold SamplableSet.init
      rw [hnew]

theorem init_bounds_validation_witness :
    SamplableSet.init 0 (.fin 100) none 42 = .error .rangeError ∧
    SamplableSet.init 1 .inf none 42 = .error .rangeError ∧
    SamplableSet.init 2 (.fin 1) none 42 = .error .rangeError :=
  ⟨(init_bounds_validation 0 (.fin 100) 42).1 (by decide),
    (init_bounds_validation 1 .inf 42).1 (by decide),
    (init_bounds_validation 2 (.fin 1) 42).1 (by decide)⟩

theorem readHeap_append_self : ∀ (h : CRHeap) (x : SamplableSetCR),
    readHeap (h ++ [x]) h.length = x
  | [], _ => rfl
  | _ :: t, x => readHeap_append_self t x

theorem readHeap_append_lt : ∀ (h : CRHeap) (x : SamplableSetCR) (i : ℕ),
    i < h.length → readHeap (h ++ [x]) i = readHeap h i
  | [], _, i, hi => absurd hi (Nat.not_lt_zero i)
  | _ :: _, _, 0, _ => rfl
  | _ :: t, x, i + 1, hi => readHeap_append_lt t x i (Nat.lt_of_succ_lt_succ hi)

theorem readHeap_set_ne : ∀ (h : CRHeap) (j : ℕ) (v : SamplableSetCR) (i : ℕ),
    i ≠ j → readHeap (h.set j v) i = readHeap h i
  | [], _, _, _, _ => rfl
  | _ :: _, 0, _, 0, hne => absurd rfl hne
  | _ :: _, 0, _, _ + 1, _ => rfl
  | _ :: _, _ + 1, _, 0, _ => rfl
  | _ :: t, j + 1, v, i + 1, hne =>
    readHeap_set_ne t j v i (fun hh => hne (by rw [hh]))

/-- C8: `copy()` yields an independent clone: the fresh object holds a state
equal to the original's (hence equal size, total weight, and contents), it is
a distinct object, and any subsequent mutation of either object — the clone
or the original — leaves what the other holds exactly as it was. -/
theorem copy_independent (h : CRHeap) (i : ℕ) (g g' : SamplableSetCR → SamplableSetCR)
    (hi : i < h.length) :
    readHeap (copyHeap h i).1 (copyHeap h i).2 = readHeap h i ∧
    (readHeap (copyHeap h i).1 (copyHeap h i).2).size = (readHeap h i).size ∧
    (readHeap (copyHeap h i).1 (copyHeap h i).2).total_weight = (readHeap h i).total_weight ∧
    (copyHeap h i).2 ≠ i ∧
    readHeap (mutateHeap (copyHeap h i).1 (copyHeap h i).2 g) i = readHeap h i ∧
    readHeap (mutateHeap (copyHeap h i).1 i g') (copyHeap h i).2 = readHeap h i := by
  have hx := readHeap_append_self h (readHeap h i)
  refine ⟨hx, congrArg SamplableSetCR.size hx, congrArg SamplableSetCR.total_weight hx,
    Nat.ne_of_gt hi, ?_, ?_⟩
  · show readHeap ((h ++ [readHeap h i]).set h.length _) i = readHeap h i
    rw [readHeap_set_ne _ _ _ _ (Nat.ne_of_lt hi)]
    exact readHeap_append_lt h _ i hi
  · show readHeap ((h ++ [readHeap h i]).set i _) h.length = readHeap h i
    rw [readHeap_set_ne _ _ _ _ (Nat.ne_of_gt hi)]
    exact hx

theorem copy_independent_witness :
    (0 < ([⟨1, 10, [(.strKey "a", 2)], 0⟩] : CRHeap).length) ∧
    readHeap (mutateHeap (copyHeap [⟨1, 10, [(.strKey "a", 2)], 0⟩] 0).1
        (copyHeap [⟨1, 10, [(.strKey "a", 2)], 0⟩] 0).2
        (fun c => ⟨c.minW, c.maxW, [], c.seed⟩)) 0
      = readHeap [⟨1, 10, [(.strKey "a", 2)], 0⟩] 0 :=
  ⟨by decide,
    (copy_independent [⟨1, 10, [(.strKey "a", 2)], 0⟩] 0
      (fun c => ⟨c.minW, c.maxW, [], c.seed⟩)
      (fun c => ⟨c.minW, c.maxW, c.entries ++ [(.strKey "b", 3)], c.seed⟩)
      (by decide)).2.2.2.2.1⟩

/-- C1: for every key and every weight within `[min_weight, max_weight]`,
dict-style assignment raises nothing, routes to `set_weight` when the key is
already present and to `insert` when it is absent, and afterwards the key is
present with exactly the assigned weight. -/
theorem setitem_upsert (s : SamplableSet) (k : PyKey) (w : ℚ)
    (hwf : s.WF) (h₁ : s.min_weight ≤ w) (h₂ : w ≤ s.max_weight) :
    (s.setitem k w).1 = none ∧
    (s.setitem k w).2.count k = some w ∧
    (s.setitem k w).2.contains k = true ∧
    (s.contains k = true →
      s._samplable_set.set_weight k w = .ok (s.setitem k w).2._samplable_set) ∧
    (s.contains k = false →
      s._samplable_set.insert k w = .ok (s.setitem k w).2._samplable_set) := by
  have hmin := hwf.2.1
  have hmax := hwf.2.2
  have hpos : 0 < s.min_weight := by rw [hmin]; exact hwf.1.1
  have hwne : w ≠ 0 := ne_of_gt (lt_of_lt_of_le hpos h₁)
  cases hcnt : s._samplable_set.count k with
  | none =>
    have hcf : s.contains k = false := by
      simp [SamplableSet.contains, SamplableSet.count, hcnt, pyTruthyOpt]
    have hset := setitem_of_absent w hmin hmax h₁ h₂ hcnt
    refine ⟨by rw [hset.2], ?_, ?_, ?_, fun _ => by rw [hset.2]; exact hset.1⟩
    · rw [hset.2]
      show lookupWeight (s._samplable_set.entries ++ [(k, w)]) k = some w
      rw [lookupWeight_append_of_none hcnt k w, if_pos rfl]
    · rw [hset.2]
      show pyTruthyOpt (lookupWeight (s._samplable_set.entries ++ [(k, w)]) k) = true
      rw [lookupWeight_append_of_none hcnt k w, if_pos rfl]
      simp [pyTruthyOpt, hwne]
    · intro hc
      rw [hcf] at hc
      exact absurd hc (by simp)
  | some w' =>
    have hcnt' : lookupWeight s._samplable_set.entries k = some w' := hcnt
    have hmem := mem_of_lookupWeight hcnt'
    have hw' : w' ≠ 0 := by
      have hb := hwf.1.2.2 _ hmem
      exact ne_of_gt (lt_of_lt_of_le hwf.1.1 hb.1)
    have hct : s.contains k = true := by
      simp [SamplableSet.contains, SamplableSet.count, hcnt, pyTruthyOpt, hw']
    have hset := setitem_of_present w hmin hmax h₁ h₂ hw' hcnt
    refine ⟨by rw [hset.2], ?_, ?_, fun _ => by rw [hset.2]; exact hset.1, ?_⟩
    · rw [hset.2]
      show lookupWeight (setWeightList s._samplable_set.entries k w) k = some w
      exact lookupWeight_setWeightList hcnt' w
    · rw [hset.2]
      show pyTruthyOpt (lookupWeight (setWeightList s._samplable_set.entries k w) k) = true
      rw [lookupWeight_setWeightList hcnt' w]
      simp [pyTruthyOpt, hwne]
    · intro hc
      rw [hct] at hc
      exact absurd hc (by simp)

theorem setitem_upsert_witness :
    SamplableSet.WF ⟨⟨1, 10, [(.strKey "a", 2)], 0⟩, 1, 10⟩ ∧
    ((1 : ℚ) ≤ 3) ∧ ((3 : ℚ) ≤ 10) ∧
    (SamplableSet.setitem ⟨⟨1, 10, [(.strKey "a", 2)], 0⟩, 1, 10⟩ (.strKey "a") 3).1 = none ∧
    (SamplableSet.setitem ⟨⟨1, 10, [(.strKey "a", 2)], 0⟩, 1, 10⟩ (.strKey "a") 3).2.count
      (.strKey "a") = some 3 :=
  ⟨by decide, by decide, by decide,
    (setitem_upsert ⟨⟨1, 10, [(.strKey "a", 2)], 0⟩, 1, 10⟩ (.strKey "a") 3
      (by decide) (by decide) (by decide)).1,
    (setitem_upsert ⟨⟨1, 10, [(.strKey "a", 2)], 0⟩, 1, 10⟩ (.strKey "a") 3
      (by decide) (by decide) (by decide)).2.1⟩

/-- C9: construction from a dict assigns the first key twice — once on
line 80 and once more in the loop of lines 81–82 — but because `__setitem__`
upserts, the second assignment rewrites the same weight in place: the
container ends with exactly the dict's pairs, its size is the number of
distinct keys, and each key carries its mapped weight. -/
theorem init_from_dict (minW m : ℚ) (seed : ℕ) (pairs : List (PyKey × ℚ))
    (hmin : 0 < minW) (hlt : minW < m) (hne : pairs ≠ [])
    (hnd : (pairs.map Prod.fst).Nodup)
    (hw : ∀ p ∈ pairs, minW ≤ p.2 ∧ p.2 ≤ m) :
    SamplableSet.init minW (.fin m) (some pairs) seed
      = .ok ⟨⟨minW, m, pairs, seed⟩, minW, m⟩ ∧
    (⟨⟨minW, m, pairs, seed⟩, minW, m⟩ : SamplableSet).len = pairs.length ∧
    ∀ p ∈ pairs, (⟨⟨minW, m, pairs, seed⟩, minW, m⟩ : SamplableSet).count p.1 = some p.2 := by
  refine ⟨?_, rfl, fun p hp => lookupWeight_nodup_mem hnd hp⟩
  cases pairs with
  | nil => exact absurd rfl hne
  | cons p₀ rest =>
    obtain ⟨k₀, w₀⟩ := p₀
    have hb₀ := hw (k₀, w₀) (List.mem_cons_self _ _)
    have hw₀ne : w₀ ≠ 0 := ne_of_gt (lt_of_lt_of_le hmin hb₀.1)
    have hnew : SamplableSetCR.new minW (.fin m) seed = .ok ⟨minW, m, [], seed⟩ := by
      show (if 0 < minW ∧ minW < m then
          (Except.ok ⟨minW, m, [], seed⟩ : Except PyErr SamplableSetCR)
        else .error .rangeError) = .ok ⟨minW, m, [], seed⟩
      rw [if_pos ⟨hmin, hlt⟩]
    have hset₀ : SamplableSet.setitem ⟨⟨minW, m, [], seed⟩, minW, m⟩ k₀ w₀
        = (none, ⟨⟨minW, m, [(k₀, w₀)], seed⟩, minW, m⟩) := by
      have habs : SamplableSetCR.count ⟨minW, m, [], seed⟩ k₀ = none := rfl
      have h := (setitem_of_absent (s := ⟨⟨minW, m, [], seed⟩, minW, m⟩)
        w₀ rfl rfl hb₀.1 hb₀.2 habs).2
      rw [h]
      rfl
    have hinit : SamplableSet.init minW (.fin m) (some ((k₀, w₀) :: rest)) seed
        = initLoop ⟨⟨minW, m, [(k₀, w₀)], seed⟩, minW, m⟩ ((k₀, w₀) :: rest) := by
      unfold SamplableSet.init
      rw [hnew]
      show (match SamplableSet.setitem ⟨⟨minW, m, [], seed⟩, minW, m⟩ k₀ w₀ with
        | (some e, _) => (Except.error e : Except PyErr SamplableSet)
        | (none, s₁) => initLoop s₁ ((k₀, w₀) :: rest)) = _
      rw [hset₀]
    have hcnt₁ : lookupWeight [(k₀, w₀)] k₀ = some w₀ := by
      rw [lookupWeight, if_pos rfl]
    have hset₁ : SamplableSet.setitem ⟨⟨minW, m, [(k₀, w₀)], seed⟩, minW, m⟩ k₀ w₀
        = (none, ⟨⟨minW, m, [(k₀, w₀)], seed⟩, minW, m⟩) := by
      have hcnt₁' : SamplableSetCR.count ⟨minW, m, [(k₀, w₀)], seed⟩ k₀ = some w₀ := hcnt₁
      have hp := (setitem_of_present (s := ⟨⟨minW, m, [(k₀, w₀)], seed⟩, minW, m⟩)
        w₀ rfl rfl hb₀.1 hb₀.2 hw₀ne hcnt₁').2
      rw [hp]
      simp [setWeightList]
    have hloop₁ : initLoop ⟨⟨minW, m, [(k₀, w₀)], seed⟩, minW, m⟩ ((k₀, w₀) :: rest)
        = initLoop ⟨⟨minW, m, [(k₀, w₀)], seed⟩, minW, m⟩ rest := by
      show (match SamplableSet.setitem ⟨⟨minW, m, [(k₀, w₀)], seed⟩, minW, m⟩ k₀ w₀ with
        | (none, s₁) => initLoop s₁ rest
        | (some e, _) => (Except.error e : Except PyErr SamplableSet)) = _
      rw [hset₁]
    rw [List.map_cons, List.nodup_cons] at hnd
    have hfresh : ∀ p ∈ rest,
        SamplableSetCR.count ⟨minW, m, [(k₀, w₀)], seed⟩ p.1 = none := by
      intro p hp
      have hne' : ¬ (k₀ = p.1) := by
        intro hh
        exact hnd.1 (by rw [hh]; exact List.mem_map.mpr ⟨p, hp, rfl⟩)
      show lookupWeight [(k₀, w₀)] p.1 = none
      rw [lookupWeight, if_neg hne', lookupWeight]
    have hloop₂ := initLoop_of_fresh rest ⟨⟨minW, m, [(k₀, w₀)], seed⟩, minW, m⟩
      ⟨⟨hmin, le_of_lt hlt, fun e he => by rw [List.mem_singleton.mp he]; exact hb₀⟩, rfl, rfl⟩
      (fun p hp => hw p (List.mem_cons_of_mem _ hp))
      hfresh
      hnd.2
    exact hinit.trans (hloop₁.trans hloop₂)

theorem init_from_dict_witness :
    SamplableSet.init 1 (.fin 100)
      (some [(.intKey 3, mkRat 333 10), (.intKey 6, mkRat 666 10)]) 0
      = .ok ⟨⟨1, 100, [(.intKey 3, mkRat 333 10), (.intKey 6, mkRat 666 10)], 0⟩, 1, 100⟩ :=
  (init_from_dict 1 100 0 [(.intKey 3, mkRat 333 10), (.intKey 6, mkRat 666 10)]
    (by decide) (by decide) (by decide) (by decide) (by decide)).1
